import Mathlib

/-!
Verification of the Camila course-assistant pipeline (`src/app.js`).

The JavaScript source is shallowly embedded: each helper of the source file
(`normalize`, `sanitize`, `clamp`, `jaccard`, `pickCourse`, the catalog-context
builder, the post-processing regex rewrites and the WhatsApp message handler)
is translated into an executable Lean definition, and the spec claims are
proved or refuted against those definitions.

Strings are modelled as Lean `String`s (sequences of Unicode scalar values).
JavaScript character classes (`\s`, `\w`, `\p{L}`, `\p{N}`) and the
`toLowerCase` / NFD decomposition steps are modelled on the alphabet this
pipeline actually distinguishes: ASCII plus the Spanish accented letters; all
other characters are left untouched by case mapping and decomposition and are
not letters for the normalizer, which matches the behaviour of the source on
its input language.
-/

namespace Camila

/-! ## Character-level model -/

/-- Model of `String.prototype.toLowerCase` on the alphabet the pipeline
distinguishes: ASCII letters plus the Spanish accented uppercase letters.
All other characters are mapped to themselves. -/
def jsLowerChar (c : Char) : Char :=
  if c = 'A' then 'a' else if c = 'B' then 'b' else if c = 'C' then 'c'
  else if c = 'D' then 'd' else if c = 'E' then 'e' else if c = 'F' then 'f'
  else if c = 'G' then 'g' else if c = 'H' then 'h' else if c = 'I' then 'i'
  else if c = 'J' then 'j' else if c = 'K' then 'k' else if c = 'L' then 'l'
  else if c = 'M' then 'm' else if c = 'N' then 'n' else if c = 'O' then 'o'
  else if c = 'P' then 'p' else if c = 'Q' then 'q' else if c = 'R' then 'r'
  else if c = 'S' then 's' else if c = 'T' then 't' else if c = 'U' then 'u'
  else if c = 'V' then 'v' else if c = 'W' then 'w' else if c = 'X' then 'x'
  else if c = 'Y' then 'y' else if c = 'Z' then 'z'
  else if c = 'Á' then 'á' else if c = 'É' then 'é' else if c = 'Í' then 'í'
  else if c = 'Ó' then 'ó' else if c = 'Ú' then 'ú' else if c = 'Ü' then 'ü'
  else if c = 'Ñ' then 'ñ'
  else c

/-- Model of `String.prototype.normalize("NFD")` as applied after
lowercasing: the lowercase accented letters decompose into their base letter
followed by a combining mark in U+0300–U+036F; every other character is its
own decomposition. -/
def nfdChar (c : Char) : List Char :=
  if c = 'á' then ['a', '\u0301'] else if c = 'é' then ['e', '\u0301']
  else if c = 'í' then ['i', '\u0301'] else if c = 'ó' then ['o', '\u0301']
  else if c = 'ú' then ['u', '\u0301'] else if c = 'ü' then ['u', '\u0308']
  else if c = 'ñ' then ['n', '\u0303']
  else [c]

/-- The combining-mark range U+0300 to U+036F stripped by the normalizer. -/
def isCombiningMark (c : Char) : Bool :=
  0x300 ≤ c.toNat && c.toNat ≤ 0x36f

/-- Model of the `\s` character class of JavaScript regular expressions
(whitespace, line terminators, NBSP, BOM). -/
def isSpaceJS (c : Char) : Bool :=
  c = ' ' || c = '\t' || c = '\n' || c = '\r' || c = '\x0b' || c = '\x0c' ||
  c = '\u00a0' || c = '\ufeff'

/-- Model of `\p{L}` (Unicode letter) on the alphabet of the pipeline: ASCII
letters plus the Spanish accented letters. -/
def isUniLetter (c : Char) : Bool :=
  c.isAlpha ||
  c = 'á' || c = 'é' || c = 'í' || c = 'ó' || c = 'ú' || c = 'ü' || c = 'ñ' ||
  c = 'Á' || c = 'É' || c = 'Í' || c = 'Ó' || c = 'Ú' || c = 'Ü' || c = 'Ñ'

/-- Model of `\p{N}` restricted to the ASCII digits. -/
def isUniDigit (c : Char) : Bool := c.isDigit

/-- Model of the `\w` class (`[A-Za-z0-9_]`) used by `\b` word boundaries. -/
def isWordCharJS (c : Char) : Bool := c.isAlpha || c.isDigit || c = '_'

/-! ## List-level string operations -/

/-- Worker for `replace(/\s+/g, " ")`: `insideRun` records whether the
previous character belonged to a whitespace run that has already emitted
its single replacement space. -/
def squeezeGo : Bool → List Char → List Char
  | _, [] => []
  | insideRun, c :: cs =>
    if isSpaceJS c then
      if insideRun then squeezeGo true cs else ' ' :: squeezeGo true cs
    else c :: squeezeGo false cs

/-- The rewrite `replace(/\s+/g, " ")`: every maximal run of `\s` characters becomes a
single space. -/
def squeezeSpaces (l : List Char) : List Char := squeezeGo false l

/-- Model of `String.prototype.trim()`: drop leading and trailing `\s` characters. -/
def trimList (l : List Char) : List Char :=
  (((l.dropWhile (isSpaceJS ·)).reverse.dropWhile (isSpaceJS ·)).reverse)

/-- Model of `s.trim()` on strings. -/
def jsTrim (s : String) : String := String.mk (trimList s.data)

/-- Model of `arr.slice(-6)`: the most recent six entries of a list. -/
def slice6 {α : Type} (l : List α) : List α := l.drop (l.length - 6)

/-- No two adjacent characters are both whitespace. -/
def sepSpaces (l : List Char) : Prop :=
  List.Chain' (fun a b => isSpaceJS a = false ∨ isSpaceJS b = false) l

/-! ## `normalize` (src/app.js lines 78–86) -/

/-- The rewrite `replace(/[^\p{L}\p{N}\s]/gu, " ")`: non-letter, non-digit, non-space
characters become a space. -/
def blankNonWord (c : Char) : Char :=
  if isUniLetter c || isUniDigit c || isSpaceJS c then c else ' '

/-- The `normalize` helper of src/app.js on character lists: lowercase,
NFD-decompose, strip combining marks, blank every non letter/digit/space,
collapse whitespace runs, trim. -/
def normalizeList (l : List Char) : List Char :=
  trimList (squeezeSpaces
    ((((l.map jsLowerChar).flatMap nfdChar).filter
        (fun c => !isCombiningMark c)).map blankNonWord))

/-- The `normalize` helper of src/app.js. -/
def normalize (s : String) : String := String.mk (normalizeList s.data)

/-! ## `sanitize` (src/app.js lines 99–107) -/

/-- The single-character rewriting of `replace(/[`*_<>{}]/g, ch => map[ch] || ch)`:
angle brackets and braces become HTML entities, backtick, asterisk and
underscore are mapped to themselves, all other characters are untouched. -/
def escapeChar (c : Char) : List Char :=
  if c = '<' then "&lt;".data
  else if c = '>' then "&gt;".data
  else if c = '\x7b' then "&#123;".data
  else if c = '\x7d' then "&#125;".data
  else [c]

/-- The `sanitize` helper of src/app.js on character lists: escape markup
characters, collapse whitespace runs, trim. -/
def sanitizeList (l : List Char) : List Char :=
  trimList (squeezeSpaces (l.flatMap escapeChar))

/-- The `sanitize` helper of src/app.js. -/
def sanitize (s : String) : String := String.mk (sanitizeList s.data)

/-! ## `clamp` (src/app.js lines 109–112) -/

/-- The `clamp` helper of src/app.js: strings longer than `max` are cut to
their first `max` characters and an ellipsis character is appended. -/
def clamp (s : String) (max : Nat := 1200) : String :=
  if s.length > max then String.mk (s.data.take max) ++ "…" else s

/-! ## `jaccard` (src/app.js lines 150–157) -/

/-- Model of `str.split(" ")`: cut the character list at every single space
character; an empty input yields one empty piece, like JavaScript. -/
def splitOnSpace : List Char → List (List Char)
  | [] => [[]]
  | c :: cs =>
    match splitOnSpace cs with
    | t :: ts => if c = ' ' then [] :: t :: ts else (c :: t) :: ts
    | [] => [[]]

/-- The tokenization `normalize(a).split(" ").filter(Boolean)`: the whitespace-split tokens of
the normalized string. -/
def tokens (s : String) : List String :=
  ((splitOnSpace (normalize s).data).map String.mk).filter (fun t => t ≠ "")

/-- The set `new Set(...)` over the tokens. -/
def tokSet (s : String) : Finset String := (tokens s).toFinset

/-- The `jaccard` helper of src/app.js: intersection size over union size of
the two token sets, and `0` when either set is empty. -/
def jaccard (a b : String) : ℚ :=
  let A := tokSet a
  let B := tokSet b
  if A.card = 0 ∨ B.card = 0 then 0
  else ((A ∩ B).card : ℚ) / ((A ∪ B).card : ℚ)

/-! ## Course catalog model (`pickCourse`, src/app.js lines 114–148) -/

/-- Raw `requisitos` sub-record of a catalog entry; the boolean flags model
the JavaScript truthiness coercion `!!(...)`, `otros` is `none` when absent
or not an array. -/
structure RawRequisitos where
  mayor_18 : Bool
  carnet_conducir : Bool
  primaria_completa : Bool
  secundaria_completa : Bool
  otros : Option (List String)

/-- A raw, untrusted catalog record as read from `cursos_2025.json`.
String fields are `none` when missing; list fields are `none` when missing
or not arrays (the `Array.isArray` checks of `pickCourse`). -/
structure RawCourse where
  id : String
  titulo : Option String
  descripcion_breve : Option String
  descripcion_completa : Option String
  actividades : Option String
  duracion_total : Option String
  fecha_inicio : Option String
  fecha_fin : Option String
  frecuencia_semanal : Option String
  duracion_clase_horas : Option (List Int)
  dias_horarios : Option (List String)
  localidades : Option (List String)
  direcciones : Option (List String)
  requisitos : Option RawRequisitos
  materiales_aporta_estudiante : Option (List String)
  materiales_entrega_curso : Option (List String)
  formulario : Option String
  imagen : Option String
  estado : Option String

structure Requisitos where
  mayor_18 : Bool
  carnet_conducir : Bool
  primaria_completa : Bool
  secundaria_completa : Bool
  otros : List String

structure Materiales where
  aporta_estudiante : List String
  entrega_curso : List String

/-- The normalized course entity produced by `pickCourse`. -/
structure Course where
  id : String
  titulo : String
  descripcion_breve : String
  descripcion_completa : String
  actividades : String
  duracion_total : String
  fecha_inicio : String
  fecha_inicio_legible : String
  fecha_fin : String
  fecha_fin_legible : String
  frecuencia_semanal : String
  duracion_clase_horas : List Int
  dias_horarios : List String
  localidades : List String
  direcciones : List String
  requisitos : Requisitos
  materiales : Materiales
  formulario : String
  imagen : String
  estado : String

/-- Month names used by `fechaLegible` (src/app.js lines 88–91). -/
def meses : List String :=
  ["enero", "febrero", "marzo", "abril", "mayo", "junio",
   "julio", "agosto", "septiembre", "octubre", "noviembre", "diciembre"]

/-- Model of `new Date(iso)` restricted to the calendar-date ISO form
YYYY-MM-DD: returns the month (1–12) and day when the string parses,
`none` otherwise (the `Number.isNaN(d.getTime())` check). -/
def parseIsoDate (s : String) : Option (Nat × Nat) :=
  match s.data with
  | [y1, y2, y3, y4, '-', m1, m2, '-', d1, d2] =>
    if [y1, y2, y3, y4, m1, m2, d1, d2].all Char.isDigit then
      let mm := (m1.toNat - 48) * 10 + (m2.toNat - 48)
      let dd := (d1.toNat - 48) * 10 + (d2.toNat - 48)
      if 1 ≤ mm ∧ mm ≤ 12 ∧ 1 ≤ dd ∧ dd ≤ 31 then some (mm, dd) else none
    else none
  | _ => none

/-- The `fechaLegible` helper of src/app.js: empty for an absent or
unparseable date, otherwise day-of-month plus the locale month name. -/
def fechaLegible (iso : String) : String :=
  if iso = "" then ""
  else
    match parseIsoDate iso with
    | none => ""
    | some (mm, dd) => toString dd ++ " de " ++ meses.getD (mm - 1) ""

/-- JavaScript `x || ""` on an optional string. -/
def orEmpty (o : Option String) : String :=
  match o with
  | none => ""
  | some s => s

/-- The `pickCourse` normalizer of src/app.js: field-by-field sanitization,
list caps, legible dates, defaults. -/
def pickCourse (c : RawCourse) : Course :=
  { id := c.id
    titulo := sanitize (orEmpty c.titulo)
    descripcion_breve := sanitize (orEmpty c.descripcion_breve)
    descripcion_completa := sanitize (orEmpty c.descripcion_completa)
    actividades := sanitize (orEmpty c.actividades)
    duracion_total := sanitize (orEmpty c.duracion_total)
    fecha_inicio := orEmpty c.fecha_inicio
    fecha_inicio_legible := fechaLegible (orEmpty c.fecha_inicio)
    fecha_fin := orEmpty c.fecha_fin
    fecha_fin_legible := fechaLegible (orEmpty c.fecha_fin)
    frecuencia_semanal := c.frecuencia_semanal.getD "otro"
    duracion_clase_horas := (c.duracion_clase_horas.getD []).take 3
    dias_horarios := ((c.dias_horarios.getD []).map sanitize).take 8
    localidades := ((c.localidades.getD []).map sanitize).take 12
    direcciones := ((c.direcciones.getD []).map sanitize).take 8
    requisitos :=
      { mayor_18 := (c.requisitos.map (·.mayor_18)).getD false
        carnet_conducir := (c.requisitos.map (·.carnet_conducir)).getD false
        primaria_completa := (c.requisitos.map (·.primaria_completa)).getD false
        secundaria_completa := (c.requisitos.map (·.secundaria_completa)).getD false
        otros := (((c.requisitos.bind (·.otros)).getD []).map sanitize).take 10 }
    materiales :=
      { aporta_estudiante := ((c.materiales_aporta_estudiante.getD []).map sanitize).take 30
        entrega_curso := ((c.materiales_entrega_curso.getD []).map sanitize).take 30 }
    formulario := sanitize (orEmpty c.formulario)
    imagen := sanitize (orEmpty c.imagen)
    estado := match c.estado with
      | none => "proximo"
      | some s => if s = "" then "proximo" else s }

/-- The four course statuses the system rules recognize:
open, in-progress, upcoming and finished. -/
def estadoEnum : List String :=
  ["inscripcion_abierta", "en_curso", "proximo", "finalizado"]

/-! ## JSON serialization (`JSON.stringify(cursos, null, 2)`) -/

inductive Json where
  | str (s : String)
  | num (n : Int)
  | bool (b : Bool)
  | null
  | arr (items : List Json)
  | obj (fields : List (String × Json))

/-- Lower-case hexadecimal digit, for control-character escapes. -/
def hexDigit (n : Nat) : Char :=
  if n < 10 then Char.ofNat (48 + n) else Char.ofNat (87 + n)

/-- The string-escaping of `JSON.stringify`: quote, backslash, the short
control escapes, and a `u00XX` escape for the remaining control characters. -/
def jsonEscapeChar (c : Char) : List Char :=
  if c = '"' then ['\\', '"']
  else if c = '\\' then ['\\', '\\']
  else if c = '\x08' then ['\\', 'b']
  else if c = '\t' then ['\\', 't']
  else if c = '\n' then ['\\', 'n']
  else if c = '\x0c' then ['\\', 'f']
  else if c = '\r' then ['\\', 'r']
  else if c.toNat < 0x20 then
    ['\\', 'u', '0', '0', hexDigit (c.toNat / 16), hexDigit (c.toNat % 16)]
  else [c]

/-- A serialized JSON string literal. -/
def jsonQuote (s : String) : String :=
  "\"" ++ String.mk (s.data.flatMap jsonEscapeChar) ++ "\""

/-- A run of `ind` spaces of indentation. -/
def indentStr (ind : Nat) : String := String.mk (List.replicate ind ' ')

mutual

/-- Model of `JSON.stringify(v, null, 2)` at indentation level `ind`:
arrays and objects put every element on its own line, indented two further
spaces, and close on a line at the current indentation. -/
def stringifyJson (ind : Nat) : Json → String
  | .str s => jsonQuote s
  | .num n => toString n
  | .bool b => if b then "true" else "false"
  | .null => "null"
  | .arr [] => "[]"
  | .arr (x :: xs) =>
    "[\n" ++ stringifyElems (ind + 2) (x :: xs) ++ "\n" ++ indentStr ind ++ "]"
  | .obj [] => "\x7b\x7d"
  | .obj (f :: fs) =>
    "\x7b\n" ++ stringifyFields (ind + 2) (f :: fs) ++ "\n" ++ indentStr ind ++ "\x7d"

/-- The comma-and-newline separated element lines of a serialized array. -/
def stringifyElems (ind : Nat) : List Json → String
  | [] => ""
  | [x] => indentStr ind ++ stringifyJson ind x
  | x :: y :: xs =>
    indentStr ind ++ stringifyJson ind x ++ ",\n" ++ stringifyElems ind (y :: xs)

/-- The comma-and-newline separated field lines of a serialized object. -/
def stringifyFields (ind : Nat) : List (String × Json) → String
  | [] => ""
  | [(k, v)] => indentStr ind ++ jsonQuote k ++ ": " ++ stringifyJson ind v
  | (k, v) :: f :: fs =>
    indentStr ind ++ jsonQuote k ++ ": " ++ stringifyJson ind v ++ ",\n" ++
      stringifyFields ind (f :: fs)

end

/-- The JSON view of a normalized course, fields in `pickCourse` insertion
order (the order `JSON.stringify` serializes them in). -/
def courseToJson (c : Course) : Json :=
  .obj
    [("id", .str c.id),
     ("titulo", .str c.titulo),
     ("descripcion_breve", .str c.descripcion_breve),
     ("descripcion_completa", .str c.descripcion_completa),
     ("actividades", .str c.actividades),
     ("duracion_total", .str c.duracion_total),
     ("fecha_inicio", .str c.fecha_inicio),
     ("fecha_inicio_legible", .str c.fecha_inicio_legible),
     ("fecha_fin", .str c.fecha_fin),
     ("fecha_fin_legible", .str c.fecha_fin_legible),
     ("frecuencia_semanal", .str c.frecuencia_semanal),
     ("duracion_clase_horas", .arr (c.duracion_clase_horas.map Json.num)),
     ("dias_horarios", .arr (c.dias_horarios.map Json.str)),
     ("localidades", .arr (c.localidades.map Json.str)),
     ("direcciones", .arr (c.direcciones.map Json.str)),
     ("requisitos", .obj
        [("mayor_18", .bool c.requisitos.mayor_18),
         ("carnet_conducir", .bool c.requisitos.carnet_conducir),
         ("primaria_completa", .bool c.requisitos.primaria_completa),
         ("secundaria_completa", .bool c.requisitos.secundaria_completa),
         ("otros", .arr (c.requisitos.otros.map Json.str))]),
     ("materiales", .obj
        [("aporta_estudiante", .arr (c.materiales.aporta_estudiante.map Json.str)),
         ("entrega_curso", .arr (c.materiales.entrega_curso.map Json.str))]),
     ("formulario", .str c.formulario),
     ("imagen", .str c.imagen),
     ("estado", .str c.estado)]

/-- The fixed serialization budget of the catalog context
(src/app.js line 182). -/
def MAX_CONTEXT_CHARS : Nat := 18000

/-- The catalog-context builder (src/app.js lines 183–186): the pretty
serialization of the whole catalog, replaced by the serialization of the
first 40 entries when it exceeds the budget. -/
def contextoCursos (cursos : List Course) : String :=
  let full := stringifyJson 0 (Json.arr (cursos.map courseToJson))
  if full.length > MAX_CONTEXT_CHARS then
    stringifyJson 0 (Json.arr ((cursos.take 40).map courseToJson))
  else full

/-! ## The follow-up intent pattern (src/app.js line 305)

Model of the test `/\b(link|inscrib|formulario)\b/i.test(s)`: somewhere in
the string one of the three keywords occurs, case-insensitively, with a
word boundary on each side. -/

/-- Case-insensitive match of a lowercase literal pattern at the head of the
input; returns the remaining input on success. -/
def matchLiteralCI : List Char → List Char → Option (List Char)
  | [], rest => some rest
  | _ :: _, [] => none
  | p :: ps, c :: cs => if jsLowerChar c = p then matchLiteralCI ps cs else none

/-- The `\b` word boundary after a keyword: end of input or a non-word
character. -/
def boundaryAfter : List Char → Bool
  | [] => true
  | c :: _ => !isWordCharJS c

/-- One of `link`, `inscrib`, `formulario` matches here, with a word
boundary immediately after it. -/
def followUpKeywordAt (l : List Char) : Bool :=
  (match matchLiteralCI "link".data l with
   | some rest => boundaryAfter rest
   | none => false) ||
  (match matchLiteralCI "inscrib".data l with
   | some rest => boundaryAfter rest
   | none => false) ||
  (match matchLiteralCI "formulario".data l with
   | some rest => boundaryAfter rest
   | none => false)

/-- Scan every position; `prevWord` records whether the previous character
was a word character (the `\b` boundary before a keyword). -/
def followUpScan : Bool → List Char → Bool
  | _, [] => false
  | prevWord, c :: cs =>
    (!prevWord && followUpKeywordAt (c :: cs)) || followUpScan (isWordCharJS c) cs

/-- The test `followUpRE.test(userMessage)` of src/app.js lines 305–306. -/
def followUpTest (s : String) : Bool := followUpScan false s.data

/-! ## Link and title extraction (src/app.js lines 357–358) -/

/-- Match of the captured group `(https?:\/\/\S+)` (case-insensitive) at the
head of the input, returning the matched characters as written. -/
def urlAt : List Char → Option (List Char)
  | c1 :: c2 :: c3 :: c4 :: rest =>
    if jsLowerChar c1 = 'h' ∧ jsLowerChar c2 = 't' ∧ jsLowerChar c3 = 't' ∧
        jsLowerChar c4 = 'p' then
      match rest with
      | c5 :: ':' :: '/' :: '/' :: r =>
        if jsLowerChar c5 = 's' then
          let u := r.takeWhile (fun c => !isSpaceJS c)
          if u = [] then none else some ([c1, c2, c3, c4, c5, ':', '/', '/'] ++ u)
        else none
      | ':' :: '/' :: '/' :: r =>
        let u := r.takeWhile (fun c => !isSpaceJS c)
        if u = [] then none else some ([c1, c2, c3, c4, ':', '/', '/'] ++ u)
      | _ => none
    else none
  | _ => none

/-- Match of `/Formulario de inscripción:\s*(https?:\/\/\S+)/i` at the head
of the input: the literal phrase, optional whitespace, then the URL group. -/
def linkMatchAt (l : List Char) : Option (List Char) :=
  match matchLiteralCI "formulario de inscripción:".data l with
  | some rest => urlAt (rest.dropWhile (isSpaceJS ·))
  | none => none

/-- First match of the registration-link pattern anywhere in the input. -/
def linkMatchScan : List Char → Option (List Char)
  | [] => none
  | c :: cs =>
    match linkMatchAt (c :: cs) with
    | some u => some u
    | none => linkMatchScan cs

/-- The extraction `aiResponse.match(/Formulario de inscripción:\s*(https?:\/\/\S+)/i)`,
returning the captured URL of the first match. -/
def linkMatch (s : String) : Option String := (linkMatchScan s.data).map String.mk

/-- The extraction `aiResponse.match(/\*([^*]+)\*/)`: the first asterisk-delimited span
with a non-empty, asterisk-free body; returns the captured body. -/
def titleMatchScan : List Char → Option (List Char)
  | [] => none
  | '*' :: cs =>
    let content := cs.takeWhile (fun c => c ≠ '*')
    let rest := cs.dropWhile (fun c => c ≠ '*')
    if content ≠ [] ∧ rest ≠ [] then some content else titleMatchScan cs
  | _ :: cs => titleMatchScan cs

def titleMatch (s : String) : Option String := (titleMatchScan s.data).map String.mk

/-! ## Response post-processing (src/app.js lines 345–349)

Each `String.prototype.replace(re, ...)` with a global regex is modelled by
a scanner: at each position, a matcher either recognizes the pattern and
produces (replacement, rest-after-match), or the character is copied and
scanning continues at the next position. -/

/-- Global-replace driver: on a match, emit the replacement and resume after
the matched region; otherwise copy one character and try the next position.
`fuel` bounds the number of steps; since every matcher consumes at least one
input character on a match, starting the scan with the input length as fuel
never exhausts it before the input ends. -/
def rewriteGo (m : List Char → Option (List Char × List Char)) :
    Nat → List Char → List Char
  | _, [] => []
  | 0, l => l
  | fuel + 1, c :: cs =>
    match m (c :: cs) with
    | some (cap, rest) => cap ++ rewriteGo m fuel rest
    | none => c :: rewriteGo m fuel cs

/-- One whole `String.prototype.replace` pass with a global regex. -/
def rewriteScan (m : List Char → Option (List Char × List Char))
    (l : List Char) : List Char :=
  rewriteGo m l.length l

/-- Matcher for `/\*\*(\d{1,2}\s+de\s+\p{L}+)\*\*/giu` after the opening
`**` and the date digits: whitespace, `de` (case-insensitive), whitespace,
letters, closing `**`. Returns (captured group, rest). -/
def r1After (digits rest : List Char) : Option (List Char × List Char) :=
  let sp1 := rest.takeWhile (isSpaceJS ·)
  let r3 := rest.dropWhile (isSpaceJS ·)
  if sp1 = [] then none
  else
    match r3 with
    | cd :: ce :: r4 =>
      if jsLowerChar cd = 'd' ∧ jsLowerChar ce = 'e' then
        let sp2 := r4.takeWhile (isSpaceJS ·)
        let r5 := r4.dropWhile (isSpaceJS ·)
        if sp2 = [] then none
        else
          let ls := r5.takeWhile (isUniLetter ·)
          let r6 := r5.dropWhile (isUniLetter ·)
          if ls = [] then none
          else
            match r6 with
            | '*' :: '*' :: r7 => some (digits ++ sp1 ++ [cd, ce] ++ sp2 ++ ls, r7)
            | _ => none
      else none
    | _ => none

/-- Matcher for the date-unbolding rewrite
`replace(/\*\*(\d{1,2}\s+de\s+\p{L}+)\*\*/giu, "$1")`. -/
def r1MatchAt : List Char → Option (List Char × List Char)
  | '*' :: '*' :: d1 :: r1 =>
    if d1.isDigit then
      match r1 with
      | d2 :: r2 => if d2.isDigit then r1After [d1, d2] r2 else r1After [d1] (d2 :: r2)
      | [] => r1After [d1] []
    else none
  | _ => none

/-- Lazy body search for `/\*\*(.+?)\*\*/g`: at least one character, none of
them a line terminator, up to the earliest following `**`. -/
def findClose2 : List Char → Option (List Char × List Char)
  | [] => none
  | c :: cs =>
    if c = '\n' ∨ c = '\r' ∨ c = '\u2028' ∨ c = '\u2029' then none
    else
      match cs with
      | '*' :: '*' :: r => some ([c], r)
      | _ =>
        match findClose2 cs with
        | some (content, r) => some (c :: content, r)
        | none => none

/-- Matcher for the double-to-single-emphasis rewrite
`replace(/\*\*(.+?)\*\*/g, "*$1*")`. -/
def r2MatchAt : List Char → Option (List Char × List Char)
  | '*' :: '*' :: rest =>
    match findClose2 rest with
    | some (content, r) => some ('*' :: content ++ ['*'], r)
    | none => none
  | _ => none

/-- The `(https?:\/\/[^\)]+)\)` tail of the markdown-link pattern
(case-sensitive): URL body up to the closing parenthesis. -/
def r3UrlBody (scheme r2 : List Char) : Option (List Char × List Char) :=
  let u := r2.takeWhile (fun c => c ≠ ')')
  let r3 := r2.dropWhile (fun c => c ≠ ')')
  if u = [] then none
  else
    match r3 with
    | ')' :: r4 => some (scheme ++ u, r4)
    | _ => none

/-- The `(https?:\/\/[^\)]+)` group of the markdown-link pattern. -/
def r3Url : List Char → Option (List Char × List Char)
  | 'h' :: 't' :: 't' :: 'p' :: rest =>
    match rest with
    | 's' :: ':' :: '/' :: '/' :: r2 => r3UrlBody "https://".data r2
    | ':' :: '/' :: '/' :: r2 => r3UrlBody "http://".data r2
    | _ => none
  | _ => none

/-- Matcher for the markdown-link rewrite
`replace(/\[([^\]]+)\]\((https?:\/\/[^\)]+)\)/g, "$1: $2")`. -/
def r3MatchAt : List Char → Option (List Char × List Char)
  | '[' :: rest =>
    let label := rest.takeWhile (fun c => c ≠ ']')
    let r1 := rest.dropWhile (fun c => c ≠ ']')
    if label = [] then none
    else
      match r1 with
      | ']' :: '(' :: r2 =>
        match r3Url r2 with
        | some (url, r4) => some (label ++ [':', ' '] ++ url, r4)
        | none => none
      | _ => none
  | _ => none

/-- Matcher for the HTML-anchor rewrite
`replace(/<a\s+href="([^"]+)"[^>]*>([^<]+)<\/a>/gi, (m,url,txt) => txt: url)`. -/
def r4MatchAt : List Char → Option (List Char × List Char)
  | '<' :: ca :: rest =>
    if jsLowerChar ca = 'a' then
      let sp := rest.takeWhile (isSpaceJS ·)
      let r1 := rest.dropWhile (isSpaceJS ·)
      if sp = [] then none
      else
        match r1 with
        | ch :: cr :: ce :: cf :: '=' :: '"' :: r2 =>
          if jsLowerChar ch = 'h' ∧ jsLowerChar cr = 'r' ∧ jsLowerChar ce = 'e' ∧
              jsLowerChar cf = 'f' then
            let url := r2.takeWhile (fun c => c ≠ '"')
            let r3 := r2.dropWhile (fun c => c ≠ '"')
            if url = [] then none
            else
              match r3 with
              | '"' :: r4 =>
                match r4.dropWhile (fun c => c ≠ '>') with
                | '>' :: r6 =>
                  let txt := r6.takeWhile (fun c => c ≠ '<')
                  let r7 := r6.dropWhile (fun c => c ≠ '<')
                  if txt = [] then none
                  else
                    match r7 with
                    | '<' :: '/' :: cA :: '>' :: r8 =>
                      if jsLowerChar cA = 'a' then some (txt ++ [':', ' '] ++ url, r8)
                      else none
                    | _ => none
                | _ => none
              | _ => none
          else none
        | _ => none
    else none
  | _ => none

/-- The tail `[^>]+>` after the opening `<` and optional `/` of a markup tag. -/
def tagBody : List Char → Option (List Char)
  | [] => none
  | c :: cs =>
    if c = '>' then none
    else
      match cs.dropWhile (fun x => x ≠ '>') with
      | '>' :: r => some r
      | _ => none

/-- Matcher for the tag-stripping rewrite `replace(/<\/?[^>]+>/g, "")`; the
optional `/` is tried first and given up if no tag body follows it. -/
def r5MatchAt : List Char → Option (List Char × List Char)
  | '<' :: rest =>
    match rest with
    | '/' :: r =>
      match tagBody r with
      | some r2 => some ([], r2)
      | none => (tagBody rest).map (fun r2 => ([], r2))
    | _ => (tagBody rest).map (fun r2 => ([], r2))
  | _ => none

/-- The date-unbolding rewrite (src/app.js line 345). -/
def r1Rewrite (l : List Char) : List Char := rewriteScan r1MatchAt l

/-- The double-to-single-emphasis rewrite (src/app.js line 346). -/
def r2Rewrite (l : List Char) : List Char := rewriteScan r2MatchAt l

/-- The markdown-link rewrite (src/app.js line 347). -/
def r3Rewrite (l : List Char) : List Char := rewriteScan r3MatchAt l

/-- The HTML-anchor rewrite (src/app.js line 348). -/
def r4Rewrite (l : List Char) : List Char := rewriteScan r4MatchAt l

/-- The tag-stripping rewrite (src/app.js line 349). -/
def r5Rewrite (l : List Char) : List Char := rewriteScan r5MatchAt l

/-- The WhatsApp post-processing of the model reply (src/app.js lines
345–349): the five rewrites applied in source order. -/
def postprocess (s : String) : String :=
  String.mk (r5Rewrite (r4Rewrite (r3Rewrite (r2Rewrite (r1Rewrite s.data)))))

/-! ## Sessions and the message handler (src/app.js lines 222–224, 290–371) -/

inductive Role where
  | user
  | assistant
deriving DecidableEq

/-- One history entry `{role, content}`. -/
structure Turn where
  role : Role
  content : String
deriving DecidableEq

/-- The `lastSuggestedCourse` record `{titulo, formulario}`. -/
structure Suggestion where
  titulo : String
  formulario : String
deriving DecidableEq

/-- Per-chat session state. -/
structure Session where
  history : List Turn
  lastSuggestedCourse : Option Suggestion
deriving DecidableEq

/-- The session created on first contact (src/app.js line 300). -/
def initSession : Session := { history := [], lastSuggestedCourse := none }

/-- An inbound WhatsApp message, as far as the handler inspects it. -/
structure InboundMsg where
  fromMe : Bool
  body : String
deriving DecidableEq

/-- The outcome of the opaque OpenAI chat-completion call: the reply text,
or a thrown error. -/
inductive ModelResult where
  | success (text : String)
  | failure
deriving DecidableEq

/-- What one run of the message handler produced: the updated session, the
reply sent (if any), and whether the model was invoked. -/
structure HandleOutcome where
  session : Session
  reply : Option String
  modelCalled : Bool
deriving DecidableEq

/-- The fixed apology text of the catch branch (src/app.js line 369). -/
def apologyText : String := "Ocurrió un error al generar la respuesta."

/-- The reply text `(completion.choices?.[0]?.message?.content || "").trim()` followed by
the post-processing rewrites. -/
def processedReply (raw : String) : String := postprocess (jsTrim raw)

/-- The title `titleMatch ? titleMatch[1].trim() : ""` (src/app.js line 361). -/
def extractedTitle (aiResponse : String) : String :=
  match titleMatch aiResponse with
  | some t => jsTrim t
  | none => ""

/-- The `lastSuggestedCourse` update rule (src/app.js lines 357–364): when
the reply matches the registration-link pattern, the suggestion is
overwritten with the extracted title and link; otherwise the previous value
stands. -/
def extractedSuggestion (prev : Option Suggestion) (aiResponse : String) :
    Option Suggestion :=
  match linkMatch aiResponse with
  | some url =>
    some { titulo := extractedTitle aiResponse, formulario := jsTrim url }
  | none => prev

/-- The model branch of the handler (src/app.js lines 335–370): on failure
the apology is sent and the session is untouched; on success the reply is
post-processed, both turns are appended and the history trimmed, and
`lastSuggestedCourse` is overwritten when the reply matches the
registration-link pattern. -/
def modelPath (state : Session) (userMessage : String) : ModelResult → HandleOutcome
  | .failure => { session := state, reply := some apologyText, modelCalled := true }
  | .success raw =>
    let aiResponse := processedReply raw
    let newHistory := slice6 (state.history ++
      [{ role := .user, content := clamp (sanitize userMessage) },
       { role := .assistant, content := clamp aiResponse }])
    { session := { history := newHistory,
                   lastSuggestedCourse :=
                     extractedSuggestion state.lastSuggestedCourse aiResponse },
      reply := some aiResponse, modelCalled := true }

/-- The message handler (src/app.js lines 290–371): self-originated and
blank messages are dropped; a follow-up-intent message with a stored
registration link takes the deterministic shortcut; everything else goes to
the model. -/
def handleMessage (state : Session) (msg : InboundMsg) (model : ModelResult) :
    HandleOutcome :=
  if msg.fromMe then { session := state, reply := none, modelCalled := false }
  else
    let userMessage := jsTrim msg.body
    if userMessage = "" then { session := state, reply := none, modelCalled := false }
    else
      match state.lastSuggestedCourse with
      | some sug =>
        if followUpTest userMessage && !(sug.formulario = "") then
          let h1 := slice6 (state.history ++
            [{ role := .user, content := clamp (sanitize userMessage) }])
          let quick := "Formulario de inscripción: " ++ sug.formulario
          let h2 := slice6 (h1 ++ [{ role := .assistant, content := clamp quick }])
          { session := { history := h2, lastSuggestedCourse := state.lastSuggestedCourse },
            reply := some quick, modelCalled := false }
        else modelPath state userMessage model
      | none => modelPath state userMessage model

/-- A whole conversation: the session folded over a sequence of inbound
messages and their model outcomes. -/
def runMessages (s : Session) : List (InboundMsg × ModelResult) → Session
  | [] => s
  | (m, r) :: rest => runMessages (handleMessage s m r).session rest

/-! ## Concrete instances used by counterexamples and witnesses -/

/-- A raw catalog record whose `estado` is present but not one of the four
recognized statuses. -/
def bananaRaw : RawCourse :=
  { id := "1", titulo := some "Curso X", descripcion_breve := none,
    descripcion_completa := none, actividades := none, duracion_total := none,
    fecha_inicio := none, fecha_fin := none, frecuencia_semanal := none,
    duracion_clase_horas := none, dias_horarios := none, localidades := none,
    direcciones := none, requisitos := none,
    materiales_aporta_estudiante := none, materiales_entrega_curso := none,
    formulario := none, imagen := none, estado := some "banana" }

/-- A normalized course whose title alone exceeds the 18,000-character
context budget (`sanitize` puts no bound on string length). -/
def hugeCourse : Course :=
  { id := "1", titulo := String.mk (List.replicate 18001 'a'),
    descripcion_breve := "", descripcion_completa := "", actividades := "",
    duracion_total := "", fecha_inicio := "", fecha_inicio_legible := "",
    fecha_fin := "", fecha_fin_legible := "", frecuencia_semanal := "otro",
    duracion_clase_horas := [], dias_horarios := [], localidades := [],
    direcciones := [],
    requisitos := { mayor_18 := false, carnet_conducir := false,
                    primaria_completa := false, secundaria_completa := false,
                    otros := [] },
    materiales := { aporta_estudiante := [], entrega_curso := [] },
    formulario := "", imagen := "", estado := "proximo" }

/-! # Theorems -/

/-! ## Shared helper lemmas -/

theorem length_mk (l : List Char) : (String.mk l).length = l.length := rfl

theorem slice6_length_le {α : Type} (l : List α) : (slice6 l).length ≤ 6 := by
  unfold slice6
  rw [List.length_drop]
  omega

theorem slice6_append {α : Type} (xs ys : List α) :
    slice6 (slice6 xs ++ ys) = slice6 (xs ++ ys) := by
  unfold slice6
  rw [show xs.drop (xs.length - 6) ++ ys = (xs ++ ys).drop (xs.length - 6) from
        (List.drop_append_of_le_length (by omega)).symm,
      List.drop_drop]
  congr 1
  rw [List.length_drop, List.length_append]
  omega

/-! ## C3: algebraic properties of `jaccard` -/

/-- C3: for all strings `a` and `b`, `jaccard` is symmetric, lies in
`[0, 1]`, equals `1` on `jaccard a a` whenever `a` has at least one token
after normalization, and equals `0` (not a division by zero and not `1`)
whenever either token set is empty — in particular on an empty second
argument. -/
theorem jaccard_properties (a b : String) :
    jaccard a b = jaccard b a ∧
    0 ≤ jaccard a b ∧ jaccard a b ≤ 1 ∧
    (tokens a ≠ [] → jaccard a a = 1) ∧
    ((tokSet a = ∅ ∨ tokSet b = ∅) → jaccard a b = 0) ∧
    jaccard a "" = 0 := by
  refine ⟨?_, ?_, ?_, ?_, ?_, ?_⟩
  · simp only [jaccard]
    rw [Finset.inter_comm, Finset.union_comm]
    by_cases hc : (tokSet a).card = 0 ∨ (tokSet b).card = 0
    · rw [if_pos hc, if_pos hc.symm]
    · rw [if_neg hc, if_neg (fun h => hc h.symm)]
  · simp only [jaccard]
    split
    · exact le_refl 0
    · positivity
  · simp only [jaccard]
    split
    · exact zero_le_one
    · rename_i hne
      push_neg at hne
      have hunion : 0 < ((tokSet a ∪ tokSet b).card : ℚ) := by
        have h0 : 0 < (tokSet a).card := by omega
        have := Finset.card_le_card
          (Finset.subset_union_left : tokSet a ⊆ tokSet a ∪ tokSet b)
        exact_mod_cast by omega
      rw [div_le_one hunion]
      exact_mod_cast Finset.card_le_card Finset.inter_subset_union
  · intro hne
    simp only [jaccard]
    have hx : tokSet a ≠ ∅ := by
      rw [tokSet, ne_eq, List.toFinset_eq_empty_iff]
      exact hne
    have hcard : (tokSet a).card ≠ 0 := by
      simpa [Finset.card_eq_zero] using hx
    rw [if_neg (by tauto), Finset.inter_self, Finset.union_self]
    exact div_self (by exact_mod_cast hcard)
  · intro hempty
    simp only [jaccard]
    rw [if_pos]
    rcases hempty with h | h
    · exact Or.inl (by rw [h]; rfl)
    · exact Or.inr (by rw [h]; rfl)
  · simp only [jaccard]
    rw [if_pos]
    right
    decide

/-- Witness for C3 at concrete inputs: `"hola mundo"` has a token, and the
empty string has an empty token set. -/
theorem jaccard_properties_witness :
    jaccard "hola mundo" "hola mundo" = 1 ∧ jaccard "hola mundo" "" = 0 := by
  refine ⟨(jaccard_properties "hola mundo" "").2.2.2.1 (by decide),
          (jaccard_properties "hola mundo" "").2.2.2.2.1 (Or.inr (by decide))⟩

/-! ## C7: `clamp` and the 1200-character budget -/

/-- C7 counterexample: a 1201-character input is clamped to 1200 characters
plus an appended ellipsis, so the stored content has 1201 characters — more
than the claimed 1200-character bound. -/
theorem clamp_exceeds_budget_cex :
    ¬((clamp (String.mk (List.replicate 1201 'a'))).length ≤ 1200) := by
  have hlen : (String.mk (List.replicate 1201 'a')).length = 1201 := by
    rw [length_mk, List.length_replicate]
  unfold clamp
  rw [if_pos (by omega), String.length_append, length_mk, List.length_take]
  have h1 : (String.mk (List.replicate 1201 'a')).data.length = 1201 := hlen
  rw [h1]
  decide

/-- C7 amended: `clamp` cuts the input to its first 1200 characters and
appends a one-character ellipsis, so the stored turn content has at most
1201 characters — exactly `s.length` when the input fits the budget and
exactly 1201 otherwise. -/
theorem clamp_length_formula (s : String) :
    (clamp s).length = if s.length ≤ 1200 then s.length else 1201 := by
  unfold clamp
  split
  · rename_i hgt
    rw [String.length_append, length_mk, List.length_take, if_neg (by omega)]
    have hd : s.data.length = s.length := rfl
    have he : "…".length = 1 := rfl
    rw [hd, he]
    omega
  · rename_i hle
    rw [if_pos (by omega)]

/-! ## Handler path analysis (shared helpers) -/

/-- One handler run either leaves the history untouched, or appends a user
turn and an assistant turn, trimming to the most recent six entries after
each append (both trimming orders yield the same history). -/
theorem handleMessage_history_cases (s : Session) (m : InboundMsg) (r : ModelResult) :
    (handleMessage s m r).session.history = s.history ∨
    ∃ u a : Turn,
      (handleMessage s m r).session.history =
        slice6 (slice6 (s.history ++ [u]) ++ [a]) ∧
      (handleMessage s m r).session.history = slice6 (s.history ++ [u, a]) := by
  unfold handleMessage
  simp only []
  split
  · left; rfl
  · split
    · left; rfl
    · split
      · rename_i sug
        split
        · right
          refine ⟨_, _, rfl, ?_⟩
          rw [slice6_append, List.append_assoc]
          rfl
        · cases r with
          | failure => left; rfl
          | success raw =>
            right
            refine ⟨_, _, ?_, rfl⟩
            rw [slice6_append, List.append_assoc]
            rfl
      · cases r with
        | failure => left; rfl
        | success raw =>
          right
          refine ⟨_, _, ?_, rfl⟩
          rw [slice6_append, List.append_assoc]
          rfl

/-- One handler run either skips the model (leaving `lastSuggestedCourse`
untouched), or reaches the model: on success the new suggestion is the
link-extraction result, on failure nothing changes. -/
theorem handleMessage_suggestion_cases (s : Session) (m : InboundMsg) (r : ModelResult) :
    ((handleMessage s m r).modelCalled = false ∧
      (handleMessage s m r).session.lastSuggestedCourse = s.lastSuggestedCourse) ∨
    (∃ raw, r = ModelResult.success raw ∧
      (handleMessage s m r).modelCalled = true ∧
      (handleMessage s m r).session.lastSuggestedCourse =
        extractedSuggestion s.lastSuggestedCourse (processedReply raw)) ∨
    (r = ModelResult.failure ∧ (handleMessage s m r).modelCalled = true ∧
      (handleMessage s m r).session.lastSuggestedCourse = s.lastSuggestedCourse) := by
  unfold handleMessage
  simp only []
  split
  · left; exact ⟨rfl, rfl⟩
  · split
    · left; exact ⟨rfl, rfl⟩
    · split
      · rename_i sug
        split
        · left; exact ⟨rfl, rfl⟩
        · cases r with
          | failure => right; right; exact ⟨rfl, rfl, rfl⟩
          | success raw =>
            right; left
            refine ⟨raw, rfl, ?_, ?_⟩ <;> simp [modelPath]
      · cases r with
        | failure => right; right; exact ⟨rfl, rfl, rfl⟩
        | success raw =>
          right; left
          refine ⟨raw, rfl, ?_, ?_⟩ <;> simp [modelPath]

/-! ## C2: the history invariant -/

/-- C2: starting from a fresh session, the history never exceeds six entries
no matter how many messages are handled; and every handler run either leaves
the history alone or appends the user and assistant turns with the history
trimmed to the most recent six entries immediately after every append, on
the shortcut path and the model path alike. -/
theorem history_invariant :
    (∀ events : List (InboundMsg × ModelResult),
        ((runMessages initSession events).history).length ≤ 6) ∧
    (∀ (s : Session) (m : InboundMsg) (r : ModelResult),
        (handleMessage s m r).session.history = s.history ∨
        ∃ u a : Turn,
          (handleMessage s m r).session.history =
            slice6 (slice6 (s.history ++ [u]) ++ [a]) ∧
          (handleMessage s m r).session.history = slice6 (s.history ++ [u, a])) := by
  constructor
  · have step : ∀ (s : Session) (m : InboundMsg) (r : ModelResult),
        s.history.length ≤ 6 → ((handleMessage s m r).session.history).length ≤ 6 := by
      intro s m r hle
      rcases handleMessage_history_cases s m r with h | ⟨u, a, _, h2⟩
      · rw [h]; exact hle
      · rw [h2]; exact slice6_length_le _
    have main : ∀ (events : List (InboundMsg × ModelResult)) (s : Session),
        s.history.length ≤ 6 → ((runMessages s events).history).length ≤ 6 := by
      intro events
      induction events with
      | nil => intro s h; exact h
      | cons e rest ih =>
        intro s h
        exact ih _ (step _ _ _ h)
    intro events
    exact main events initSession (by simp [initSession])
  · exact handleMessage_history_cases

/-! ## C1: the shortcut path -/

/-- C1: whenever the session stores a suggested course with a non-empty
registration link and the (trimmed) inbound text matches the follow-up
intent pattern, the handler replies exactly
`Formulario de inscripción: {link}` and the model is not invoked. -/
theorem shortcut_reply_exact (s : Session) (m : InboundMsg) (r : ModelResult)
    (sug : Suggestion) (hm : m.fromMe = false) (hne : jsTrim m.body ≠ "")
    (hsug : s.lastSuggestedCourse = some sug) (hlink : sug.formulario ≠ "")
    (hfollow : followUpTest (jsTrim m.body) = true) :
    (handleMessage s m r).reply =
      some ("Formulario de inscripción: " ++ sug.formulario) ∧
    (handleMessage s m r).modelCalled = false := by
  unfold handleMessage
  simp only []
  rw [hm]
  rw [if_neg (by simp)]
  rw [if_neg hne, hsug]
  simp only []
  rw [if_pos (by rw [hfollow]; simp [hlink])]
  exact ⟨rfl, rfl⟩

/-- Witness for C1: the instance from the spec — stored link `https://y`,
inbound text `mandame el link`. -/
theorem shortcut_reply_exact_witness :
    (handleMessage
        { history := [], lastSuggestedCourse := some ⟨"X", "https://y"⟩ }
        ⟨false, "mandame el link"⟩ ModelResult.failure).reply =
      some "Formulario de inscripción: https://y" ∧
    (handleMessage
        { history := [], lastSuggestedCourse := some ⟨"X", "https://y"⟩ }
        ⟨false, "mandame el link"⟩ ModelResult.failure).modelCalled = false := by
  have h := shortcut_reply_exact
    { history := [], lastSuggestedCourse := some ⟨"X", "https://y"⟩ }
    ⟨false, "mandame el link"⟩ ModelResult.failure ⟨"X", "https://y"⟩
    rfl (by decide) rfl (by decide) (by decide)
  refine ⟨?_, h.2⟩
  rw [h.1]
  decide

/-! ## C4: model failure leaves the session untouched -/

/-- C4: if the model is reached and the call fails, the handler replies with
the fixed apology text and the session — history and `lastSuggestedCourse`
alike — is exactly what it was before the message was handled. -/
theorem model_failure_no_mutation (s : Session) (m : InboundMsg)
    (hcalled : (handleMessage s m ModelResult.failure).modelCalled = true) :
    (handleMessage s m ModelResult.failure).session = s ∧
    (handleMessage s m ModelResult.failure).reply = some apologyText := by
  unfold handleMessage at hcalled ⊢
  simp only [] at hcalled ⊢
  split at hcalled
  · exact absurd hcalled (by simp)
  · rename_i h1
    split at hcalled
    · exact absurd hcalled (by simp)
    · rename_i h2
      split at hcalled
      · split at hcalled
        · exact absurd hcalled (by simp)
        · rename_i hcond
          rw [if_neg h1, if_neg h2, if_neg hcond]
          exact ⟨rfl, rfl⟩
      · rw [if_neg h1, if_neg h2]
        exact ⟨rfl, rfl⟩

/-- Witness for C4: a non-shortcut message against a populated session; the
failed call replies the apology and changes nothing. -/
theorem model_failure_no_mutation_witness :
    (handleMessage
        { history := [⟨Role.user, "hola"⟩],
          lastSuggestedCourse := some ⟨"T", "https://f"⟩ }
        ⟨false, "que cursos hay"⟩ ModelResult.failure).session =
      { history := [⟨Role.user, "hola"⟩],
        lastSuggestedCourse := some ⟨"T", "https://f"⟩ } ∧
    (handleMessage
        { history := [⟨Role.user, "hola"⟩],
          lastSuggestedCourse := some ⟨"T", "https://f"⟩ }
        ⟨false, "que cursos hay"⟩ ModelResult.failure).reply = some apologyText :=
  model_failure_no_mutation
    { history := [⟨Role.user, "hola"⟩],
      lastSuggestedCourse := some ⟨"T", "https://f"⟩ }
    ⟨false, "que cursos hay"⟩ (by decide)

/-! ## C8: the `lastSuggestedCourse` frame property -/

/-- C8: `lastSuggestedCourse` is only ever modified by being overwritten
when a successful model reply contains the registration-link pattern; on
every model-free path (shortcut included), on failure, and on any model
reply without the link pattern, the previous suggestion is left exactly
intact. -/
theorem lastSuggested_frame (s : Session) (m : InboundMsg) (r : ModelResult) :
    ((handleMessage s m r).modelCalled = false →
      (handleMessage s m r).session.lastSuggestedCourse = s.lastSuggestedCourse) ∧
    ((handleMessage s m ModelResult.failure).session.lastSuggestedCourse =
      s.lastSuggestedCourse) ∧
    (∀ raw, r = ModelResult.success raw →
      linkMatch (processedReply raw) = none →
      (handleMessage s m r).session.lastSuggestedCourse = s.lastSuggestedCourse) ∧
    (∀ raw url, r = ModelResult.success raw →
      (handleMessage s m r).modelCalled = true →
      linkMatch (processedReply raw) = some url →
      (handleMessage s m r).session.lastSuggestedCourse =
        some { titulo := extractedTitle (processedReply raw)
               formulario := jsTrim url }) := by
  refine ⟨?_, ?_, ?_, ?_⟩
  · intro hfalse
    rcases handleMessage_suggestion_cases s m r with ⟨_, h⟩ | ⟨raw, _, hc, _⟩ | ⟨_, hc, _⟩
    · exact h
    · rw [hc] at hfalse; exact absurd hfalse (by simp)
    · rw [hc] at hfalse; exact absurd hfalse (by simp)
  · rcases handleMessage_suggestion_cases s m ModelResult.failure with
      ⟨_, h⟩ | ⟨raw, hraw, _, _⟩ | ⟨_, _, h⟩
    · exact h
    · exact absurd hraw (by simp)
    · exact h
  · intro raw hraw hnone
    rcases handleMessage_suggestion_cases s m r with
      ⟨_, h⟩ | ⟨raw2, hraw2, _, h⟩ | ⟨_, _, h⟩
    · exact h
    · rw [hraw] at hraw2
      injection hraw2 with he
      subst he
      rw [h]
      simp only [extractedSuggestion, hnone]
    · exact h
  · intro raw url hraw hcall hsome
    rcases handleMessage_suggestion_cases s m r with
      ⟨hc, _⟩ | ⟨raw2, hraw2, _, h⟩ | ⟨hraw2, _, _⟩
    · rw [hcall] at hc; exact absurd hc (by simp)
    · rw [hraw] at hraw2
      injection hraw2 with he
      subst he
      rw [h]
      simp only [extractedSuggestion, hsome]
    · rw [hraw] at hraw2; exact absurd hraw2 (by simp)

set_option maxHeartbeats 2000000 in
/-- Witness for C8 at concrete inputs: a link-free model reply leaves the
stored suggestion intact, and a reply with the pattern overwrites it. -/
theorem lastSuggested_frame_witness :
    (handleMessage
        { history := [], lastSuggestedCourse := some ⟨"T", "https://f"⟩ }
        ⟨false, "hola"⟩ (ModelResult.success "Hola, soy Camila.")).session.lastSuggestedCourse =
      some ⟨"T", "https://f"⟩ ∧
    (handleMessage
        { history := [], lastSuggestedCourse := some ⟨"T", "https://f"⟩ }
        ⟨false, "hola"⟩
        (ModelResult.success "El curso *Soldadura* abre. Formulario de inscripción: https://z")).session.lastSuggestedCourse =
      some ⟨"Soldadura", "https://z"⟩ := by
  constructor
  · exact (lastSuggested_frame
      { history := [], lastSuggestedCourse := some ⟨"T", "https://f"⟩ }
      ⟨false, "hola"⟩ (ModelResult.success "Hola, soy Camila.")).2.2.1
      "Hola, soy Camila." rfl (by decide)
  · have h := (lastSuggested_frame
      { history := [], lastSuggestedCourse := some ⟨"T", "https://f"⟩ }
      ⟨false, "hola"⟩
      (ModelResult.success "El curso *Soldadura* abre. Formulario de inscripción: https://z")).2.2.2
      "El curso *Soldadura* abre. Formulario de inscripción: https://z" "https://z"
      rfl (by decide) (by decide)
    rw [h]
    decide

/-! ## C6: the `estado` field of a normalized course -/

/-- C6 counterexample: a present but unrecognized raw status (`"banana"`)
is passed through untouched — it is neither defaulted to `"proximo"` nor a
member of the recognized status enum. -/
theorem estado_passthrough_cex :
    (pickCourse bananaRaw).estado = "banana" ∧
    ¬(pickCourse bananaRaw).estado ∈ estadoEnum ∧
    (pickCourse bananaRaw).estado ≠ "proximo" := by
  refine ⟨by decide, by decide, by decide⟩

/-- C6 amended: `estado` is defaulted to `"proximo"` exactly when the raw
status is missing or empty (JavaScript falsiness of `c.estado`); any other
raw status string is passed through unvalidated, so the normalized status
is a member of the recognized enum only when the raw value already is. -/
theorem estado_default_rule (c : RawCourse) :
    ((c.estado = none ∨ c.estado = some "") → (pickCourse c).estado = "proximo") ∧
    (∀ s, c.estado = some s → s ≠ "" → (pickCourse c).estado = s) := by
  constructor
  · intro h
    rcases h with h | h <;> simp [pickCourse, h]
  · intro s hs hne
    simp [pickCourse, hs, hne]

/-- Witness for C6 at concrete records: missing and empty statuses default,
a recognized status is kept. -/
theorem estado_default_rule_witness :
    (pickCourse { bananaRaw with estado := none }).estado = "proximo" ∧
    (pickCourse { bananaRaw with estado := some "" }).estado = "proximo" ∧
    (pickCourse { bananaRaw with estado := some "inscripcion_abierta" }).estado =
      "inscripcion_abierta" :=
  ⟨(estado_default_rule _).1 (Or.inl rfl),
   (estado_default_rule _).1 (Or.inr rfl),
   (estado_default_rule _).2 "inscripcion_abierta" rfl (by decide)⟩

/-! ## C5: the catalog-context budget -/

theorem flatMap_escape_ge (l : List Char) :
    l.length ≤ (l.flatMap jsonEscapeChar).length := by
  induction l with
  | nil => simp
  | cons c cs ih =>
    rw [List.flatMap_cons, List.length_append, List.length_cons]
    have hc : 1 ≤ (jsonEscapeChar c).length := by
      unfold jsonEscapeChar
      split <;> try simp
      split <;> try simp
      split <;> try simp
      split <;> try simp
      split <;> try simp
      split <;> try simp
      split <;> try simp
      split <;> simp
    omega

theorem jsonQuote_length_ge (s : String) : s.length ≤ (jsonQuote s).length := by
  unfold jsonQuote
  rw [String.length_append, String.length_append]
  have h1 := flatMap_escape_ge s.data
  have h2 : s.data.length = s.length := rfl
  have h3 : (String.mk (s.data.flatMap jsonEscapeChar)).length =
      (s.data.flatMap jsonEscapeChar).length := rfl
  omega

theorem stringify_str_ge (ind : Nat) (s : String) :
    s.length ≤ (stringifyJson ind (Json.str s)).length := by
  have h : stringifyJson ind (Json.str s) = jsonQuote s := by simp [stringifyJson]
  rw [h]
  exact jsonQuote_length_ge s

/-- A serialized object is at least as long as the serialization of any of
its field values. -/
theorem stringifyFields_ge (ind : Nat) (fs : List (String × Json)) (k : String)
    (v : Json) (hmem : (k, v) ∈ fs) :
    (stringifyJson ind v).length ≤ (stringifyFields ind fs).length := by
  induction fs with
  | nil => cases hmem
  | cons f rest ih =>
    cases rest with
    | nil =>
      have hf : (k, v) = f := List.mem_singleton.mp hmem
      subst hf
      have h : stringifyFields ind [(k, v)] =
          indentStr ind ++ jsonQuote k ++ ": " ++ stringifyJson ind v := by
        simp [stringifyFields]
      rw [h, String.length_append, String.length_append, String.length_append]
      omega
    | cons f2 rest2 =>
      have h : stringifyFields ind (f :: f2 :: rest2) =
          indentStr ind ++ jsonQuote f.1 ++ ": " ++ stringifyJson ind f.2 ++ ",\n" ++
            stringifyFields ind (f2 :: rest2) := by
        cases f
        simp [stringifyFields]
      rcases List.mem_cons.mp hmem with hf | hmem2
      · subst hf
        rw [h, String.length_append, String.length_append, String.length_append,
            String.length_append, String.length_append]
        have hp : ((k, v).2) = v := rfl
        rw [hp]
        omega
      · have hrec := ih hmem2
        rw [h, String.length_append]
        omega

theorem stringify_obj_field_ge (ind : Nat) (fs : List (String × Json)) (k : String)
    (v : Json) (hmem : (k, v) ∈ fs) :
    (stringifyJson (ind + 2) v).length ≤ (stringifyJson ind (Json.obj fs)).length := by
  cases fs with
  | nil => cases hmem
  | cons f rest =>
    have h : stringifyJson ind (Json.obj (f :: rest)) =
        "\x7b\n" ++ stringifyFields (ind + 2) (f :: rest) ++ "\n" ++ indentStr ind ++
          "\x7d" := by
      simp [stringifyJson]
    rw [h, String.length_append, String.length_append, String.length_append,
        String.length_append]
    have := stringifyFields_ge (ind + 2) (f :: rest) k v hmem
    omega

theorem stringify_arr_head_ge (ind : Nat) (x : Json) (xs : List Json) :
    (stringifyJson (ind + 2) x).length ≤ (stringifyJson ind (Json.arr (x :: xs))).length := by
  have h : stringifyJson ind (Json.arr (x :: xs)) =
      "[\n" ++ stringifyElems (ind + 2) (x :: xs) ++ "\n" ++ indentStr ind ++ "]" := by
    simp [stringifyJson]
  have helems : (stringifyJson (ind + 2) x).length ≤
      (stringifyElems (ind + 2) (x :: xs)).length := by
    cases xs with
    | nil =>
      have h2 : stringifyElems (ind + 2) [x] =
          indentStr (ind + 2) ++ stringifyJson (ind + 2) x := by
        simp [stringifyElems]
      rw [h2, String.length_append]
      omega
    | cons y ys =>
      have h2 : stringifyElems (ind + 2) (x :: y :: ys) =
          indentStr (ind + 2) ++ stringifyJson (ind + 2) x ++ ",\n" ++
            stringifyElems (ind + 2) (y :: ys) := by
        simp [stringifyElems]
      rw [h2, String.length_append, String.length_append, String.length_append]
      omega
  rw [h, String.length_append, String.length_append, String.length_append,
      String.length_append]
  omega

/-- The one-course catalog built around `hugeCourse` serializes to more than
the 18,000-character budget: the serialization embeds the escaped title. -/
theorem hugeCourse_context_ge :
    18001 ≤ (stringifyJson 0 (Json.arr ([hugeCourse].map courseToJson))).length := by
  have hmem : (("titulo" : String), Json.str hugeCourse.titulo) ∈
      [(("id" : String), Json.str hugeCourse.id),
       ("titulo", Json.str hugeCourse.titulo),
       ("descripcion_breve", Json.str hugeCourse.descripcion_breve),
       ("descripcion_completa", Json.str hugeCourse.descripcion_completa),
       ("actividades", Json.str hugeCourse.actividades),
       ("duracion_total", Json.str hugeCourse.duracion_total),
       ("fecha_inicio", Json.str hugeCourse.fecha_inicio),
       ("fecha_inicio_legible", Json.str hugeCourse.fecha_inicio_legible),
       ("fecha_fin", Json.str hugeCourse.fecha_fin),
       ("fecha_fin_legible", Json.str hugeCourse.fecha_fin_legible),
       ("frecuencia_semanal", Json.str hugeCourse.frecuencia_semanal),
       ("duracion_clase_horas", Json.arr (hugeCourse.duracion_clase_horas.map Json.num)),
       ("dias_horarios", Json.arr (hugeCourse.dias_horarios.map Json.str)),
       ("localidades", Json.arr (hugeCourse.localidades.map Json.str)),
       ("direcciones", Json.arr (hugeCourse.direcciones.map Json.str)),
       ("requisitos", Json.obj
          [("mayor_18", Json.bool hugeCourse.requisitos.mayor_18),
           ("carnet_conducir", Json.bool hugeCourse.requisitos.carnet_conducir),
           ("primaria_completa", Json.bool hugeCourse.requisitos.primaria_completa),
           ("secundaria_completa", Json.bool hugeCourse.requisitos.secundaria_completa),
           ("otros", Json.arr (hugeCourse.requisitos.otros.map Json.str))]),
       ("materiales", Json.obj
          [("aporta_estudiante", Json.arr (hugeCourse.materiales.aporta_estudiante.map Json.str)),
           ("entrega_curso", Json.arr (hugeCourse.materiales.entrega_curso.map Json.str))]),
       ("formulario", Json.str hugeCourse.formulario),
       ("imagen", Json.str hugeCourse.imagen),
       ("estado", Json.str hugeCourse.estado)] := by
    simp
  have hobj := stringify_obj_field_ge 2 _ "titulo" (Json.str hugeCourse.titulo) hmem
  have harr := stringify_arr_head_ge 0 (courseToJson hugeCourse) []
  have hstr := stringify_str_ge 4 hugeCourse.titulo
  have htit : hugeCourse.titulo.length = 18001 := by
    show (String.mk (List.replicate 18001 'a')).length = 18001
    rw [length_mk, List.length_replicate]
  have hmap : [hugeCourse].map courseToJson = [courseToJson hugeCourse] := rfl
  have hcj : courseToJson hugeCourse = Json.obj _ := rfl
  rw [hmap]
  rw [courseToJson] at harr
  have := le_trans hstr (le_trans hobj harr)
  rw [← courseToJson] at this
  omega

/-- C5 counterexample: for the one-course catalog around `hugeCourse`, the
full serialization exceeds the budget, the first-40-entries substitution is
the same catalog, and the substituted context still exceeds the budget —
refuting that the resulting serialized size is at most the budget. -/
theorem context_budget_cex :
    (stringifyJson 0 (Json.arr ([hugeCourse].map courseToJson))).length >
      MAX_CONTEXT_CHARS ∧
    (contextoCursos [hugeCourse]).length > MAX_CONTEXT_CHARS := by
  have h := hugeCourse_context_ge
  have hfull : (stringifyJson 0 (Json.arr ([hugeCourse].map courseToJson))).length >
      MAX_CONTEXT_CHARS := by
    rw [MAX_CONTEXT_CHARS]
    omega
  refine ⟨hfull, ?_⟩
  simp only [contextoCursos]
  rw [if_pos hfull]
  have htake : ([hugeCourse].take 40) = [hugeCourse] := rfl
  rw [htake]
  exact hfull

/-- C5 amended: when the serialized full catalog exceeds the fixed
18,000-character budget, the context is replaced by the serialization of the
first 40 catalog entries — a prefix of the catalog, never a mid-structure
truncation — but the substituted serialization is not re-checked against the
budget and can still exceed it. -/
theorem context_budget_substitution (cursos : List Course)
    (h : (stringifyJson 0 (Json.arr (cursos.map courseToJson))).length >
      MAX_CONTEXT_CHARS) :
    contextoCursos cursos =
      stringifyJson 0 (Json.arr ((cursos.take 40).map courseToJson)) ∧
    ∃ rest, cursos.take 40 ++ rest = cursos := by
  constructor
  · simp only [contextoCursos]
    rw [if_pos h]
  · exact ⟨cursos.drop 40, List.take_append_drop 40 cursos⟩

/-- Witness for C5 at the concrete one-course catalog whose serialization
exceeds the budget. -/
theorem context_budget_substitution_witness :
    contextoCursos [hugeCourse] =
      stringifyJson 0 (Json.arr (([hugeCourse].take 40).map courseToJson)) ∧
    ∃ rest, [hugeCourse].take 40 ++ rest = [hugeCourse] :=
  context_budget_substitution [hugeCourse]
    (by have := hugeCourse_context_ge; rw [MAX_CONTEXT_CHARS]; omega)

/-! ## C9 and C10: idempotence of `normalize` and `sanitize` -/

theorem squeezeGo_mem (l : List Char) :
    ∀ (b : Bool) (c : Char), c ∈ squeezeGo b l →
      c = ' ' ∨ (c ∈ l ∧ isSpaceJS c = false) := by
  induction l with
  | nil => intro b c h; simp [squeezeGo] at h
  | cons d ds ih =>
    intro b c h
    simp only [squeezeGo] at h
    split at h
    · split at h
      · rcases ih true c h with h1 | ⟨h2, h3⟩
        · exact Or.inl h1
        · exact Or.inr ⟨List.mem_cons_of_mem _ h2, h3⟩
      · rcases List.mem_cons.mp h with h1 | h1
        · exact Or.inl h1
        · rcases ih true c h1 with h2 | ⟨h2, h3⟩
          · exact Or.inl h2
          · exact Or.inr ⟨List.mem_cons_of_mem _ h2, h3⟩
    · rcases List.mem_cons.mp h with h1 | h1
      · subst h1
        rename_i hd
        exact Or.inr ⟨List.mem_cons_self _ _, by simpa using hd⟩
      · rcases ih false c h1 with h2 | ⟨h2, h3⟩
        · exact Or.inl h2
        · exact Or.inr ⟨List.mem_cons_of_mem _ h2, h3⟩

theorem squeezeGo_true_head (l : List Char) :
    ∀ d ds, squeezeGo true l = d :: ds → isSpaceJS d = false := by
  induction l with
  | nil => intro d ds h; simp [squeezeGo] at h
  | cons c cs ih =>
    intro d ds h
    simp only [squeezeGo] at h
    split at h
    · exact ih d ds h
    · injection h with h1 h2
      subst h1
      rename_i hc
      simpa using hc

theorem squeezeGo_chain (l : List Char) :
    ∀ b : Bool, sepSpaces (squeezeGo b l) := by
  unfold sepSpaces
  induction l with
  | nil => intro b; simp [squeezeGo]
  | cons c cs ih =>
    intro b
    simp only [squeezeGo]
    split
    · split
      · exact ih true
      · refine List.chain'_cons'.mpr ⟨?_, ih true⟩
        intro y hy
        right
        cases hhead : squeezeGo true cs with
        | nil => rw [hhead] at hy; simp at hy
        | cons d ds =>
          rw [hhead] at hy
          simp at hy
          subst hy
          exact squeezeGo_true_head cs d ds hhead
    · refine List.chain'_cons'.mpr ⟨?_, ih false⟩
      intro y hy
      left
      rename_i hc
      simpa using hc

theorem squeezeGo_id (l : List Char)
    (hch : sepSpaces l) (hsp : ∀ c ∈ l, isSpaceJS c = true → c = ' ') :
    squeezeGo false l = l ∧
    ((∀ d ∈ l.head?, isSpaceJS d = false) → squeezeGo true l = l) := by
  induction l with
  | nil => exact ⟨rfl, fun _ => rfl⟩
  | cons c cs ih =>
    have hch' : sepSpaces cs := List.Chain'.tail hch
    have hsp' : ∀ x ∈ cs, isSpaceJS x = true → x = ' ' :=
      fun x hx => hsp x (List.mem_cons_of_mem _ hx)
    have ihcs := ih hch' hsp'
    constructor
    · simp only [squeezeGo]
      split
      · rename_i hc
        have hc' : c = ' ' := hsp c (List.mem_cons_self _ _) hc
        rw [if_neg (by simp)]
        rw [hc']
        congr 1
        apply ihcs.2
        intro d hd
        have hrel := (List.chain'_cons'.mp hch).1 d hd
        rcases hrel with h1 | h1
        · rw [hc] at h1; exact absurd h1 (by simp)
        · exact h1
      · congr 1
        exact ihcs.1
    · intro hhead
      simp only [squeezeGo]
      split
      · rename_i hc
        have := hhead c (by simp)
        rw [hc] at this
        exact absurd this (by simp)
      · congr 1
        exact ihcs.1

theorem dropWhile_head_not (p : Char → Bool) (l : List Char) :
    ∀ d ds, l.dropWhile p = d :: ds → p d = false := by
  induction l with
  | nil => intro d ds h; simp at h
  | cons c cs ih =>
    intro d ds h
    rw [List.dropWhile_cons] at h
    split at h
    · exact ih d ds h
    · injection h with h1 h2
      subst h1
      rename_i hc
      simpa using hc

theorem dropWhile_eq_self_of_head (p : Char → Bool) (l : List Char)
    (h : ∀ d ∈ l.head?, p d = false) : l.dropWhile p = l := by
  cases l with
  | nil => rfl
  | cons c cs =>
    have hc := h c (by simp)
    exact List.dropWhile_cons_of_neg (by simp [hc])

theorem trimList_mem (l : List Char) (c : Char) (h : c ∈ trimList l) : c ∈ l := by
  unfold trimList at h
  rw [List.mem_reverse] at h
  have h2 := (List.dropWhile_suffix _).subset h
  rw [List.mem_reverse] at h2
  exact (List.dropWhile_suffix _).subset h2

theorem chain_suffix {R : Char → Char → Prop} (l t : List Char)
    (hs : t <:+ l) (h : List.Chain' R l) : List.Chain' R t := by
  obtain ⟨q, rfl⟩ := hs
  induction q with
  | nil => exact h
  | cons a as ih =>
    apply ih
    exact List.Chain'.tail h

theorem trimList_chain (l : List Char) (h : sepSpaces l) : sepSpaces (trimList l) := by
  unfold sepSpaces at *
  unfold trimList
  have h1 := chain_suffix l (l.dropWhile (isSpaceJS ·))
    (List.dropWhile_suffix (isSpaceJS ·)) h
  have h2 : List.Chain' (flip fun a b => isSpaceJS a = false ∨ isSpaceJS b = false)
      (l.dropWhile (isSpaceJS ·)) := List.Chain'.imp (fun a b hx => hx.symm) h1
  have h3 := List.chain'_reverse.mpr h2
  have h4 := chain_suffix ((l.dropWhile (isSpaceJS ·)).reverse)
    ((l.dropWhile (isSpaceJS ·)).reverse.dropWhile (isSpaceJS ·))
    (List.dropWhile_suffix (isSpaceJS ·)) h3
  have h5 : List.Chain' (flip fun a b => isSpaceJS a = false ∨ isSpaceJS b = false)
      ((l.dropWhile (isSpaceJS ·)).reverse.dropWhile (isSpaceJS ·)) :=
    List.Chain'.imp (fun a b hx => hx.symm) h4
  exact List.chain'_reverse.mpr h5

theorem suffix_getLast (v w : List Char) (hs : v <:+ w) (hne : v ≠ []) :
    v.getLast? = w.getLast? := by
  obtain ⟨q, rfl⟩ := hs
  cases v with
  | nil => exact absurd rfl hne
  | cons a as => rw [List.getLast?_append_of_ne_nil]; simp

theorem trimList_idem (l : List Char) : trimList (trimList l) = trimList l := by
  rcases hv : (l.dropWhile (isSpaceJS ·)).reverse.dropWhile (isSpaceJS ·) with _ | ⟨d, ds⟩
  · have ht : trimList l = [] := by unfold trimList; rw [hv]; rfl
    rw [ht]
    rfl
  · have ht : trimList l = (d :: ds).reverse := by unfold trimList; rw [hv]
    have hhead : ∀ e ∈ (trimList l).head?, isSpaceJS e = false := by
      intro e he
      rw [ht, List.head?_reverse] at he
      have hsuffix : (d :: ds) <:+ (l.dropWhile (isSpaceJS ·)).reverse :=
        hv ▸ List.dropWhile_suffix _
      rw [suffix_getLast _ _ hsuffix (by simp), List.getLast?_reverse] at he
      cases hu : l.dropWhile (isSpaceJS ·) with
      | nil => rw [hu] at he; simp at he
      | cons x xs =>
        rw [hu] at he
        simp at he
        subst he
        exact dropWhile_head_not _ l x xs hu
    show ((((trimList l).dropWhile (isSpaceJS ·)).reverse.dropWhile (isSpaceJS ·)).reverse) = trimList l
    rw [dropWhile_eq_self_of_head _ _ hhead, ht, List.reverse_reverse]
    have hd2 : ∀ e ∈ (d :: ds).head?, isSpaceJS e = false := by
      intro e he
      simp at he
      subst he
      exact dropWhile_head_not _ _ d ds hv
    rw [dropWhile_eq_self_of_head _ _ hd2]

theorem map_id_of_mem {f : Char → Char} (l : List Char) (h : ∀ c ∈ l, f c = c) :
    l.map f = l := by
  induction l with
  | nil => rfl
  | cons c cs ih =>
    rw [List.map_cons, h c (List.mem_cons_self _ _),
        ih (fun x hx => h x (List.mem_cons_of_mem _ hx))]

theorem flatMap_id_of_mem {f : Char → List Char} (l : List Char)
    (h : ∀ c ∈ l, f c = [c]) : l.flatMap f = l := by
  induction l with
  | nil => rfl
  | cons c cs ih =>
    rw [List.flatMap_cons, h c (List.mem_cons_self _ _),
        ih (fun x hx => h x (List.mem_cons_of_mem _ hx)), List.singleton_append]


theorem jsLowerChar_not_mem (c : Char)
    (h : c ∉ ['A', 'B', 'C', 'D', 'E', 'F', 'G', 'H', 'I', 'J', 'K', 'L', 'M',
              'N', 'O', 'P', 'Q', 'R', 'S', 'T', 'U', 'V', 'W', 'X', 'Y', 'Z',
              'Á', 'É', 'Í', 'Ó', 'Ú', 'Ü', 'Ñ']) :
    jsLowerChar c = c := by
  simp only [List.mem_cons, List.not_mem_nil, or_false, not_or] at h
  simp_all [jsLowerChar]

theorem jsLowerChar_idem (c : Char) : jsLowerChar (jsLowerChar c) = jsLowerChar c := by
  by_cases h : c ∈ ['A', 'B', 'C', 'D', 'E', 'F', 'G', 'H', 'I', 'J', 'K', 'L', 'M',
              'N', 'O', 'P', 'Q', 'R', 'S', 'T', 'U', 'V', 'W', 'X', 'Y', 'Z',
              'Á', 'É', 'Í', 'Ó', 'Ú', 'Ü', 'Ñ']
  · fin_cases h <;> decide
  · rw [jsLowerChar_not_mem c h, jsLowerChar_not_mem c h]


theorem nfdChar_not_mem (c : Char)
    (h : c ∉ ['á', 'é', 'í', 'ó', 'ú', 'ü', 'ñ']) : nfdChar c = [c] := by
  simp only [List.mem_cons, List.not_mem_nil, or_false, not_or] at h
  simp_all [nfdChar]

theorem nfd_lower_elem (x d : Char) (hd : d ∈ nfdChar (jsLowerChar x))
    (hm : isCombiningMark d = false) :
    jsLowerChar d = d ∧ nfdChar d = [d] := by
  by_cases hy : jsLowerChar x ∈ ['á', 'é', 'í', 'ó', 'ú', 'ü', 'ñ']
  · have key : ∀ y ∈ ['á', 'é', 'í', 'ó', 'ú', 'ü', 'ñ'], ∀ e ∈ nfdChar y,
        isCombiningMark e = false → jsLowerChar e = e ∧ nfdChar e = [e] := by decide
    exact key _ hy d hd hm
  · rw [nfdChar_not_mem _ hy] at hd
    simp at hd
    subst hd
    exact ⟨jsLowerChar_idem x, nfdChar_not_mem _ hy⟩

theorem normalizeList_chars (l : List Char) :
    ∀ c ∈ normalizeList l,
      jsLowerChar c = c ∧ nfdChar c = [c] ∧ isCombiningMark c = false ∧
      blankNonWord c = c ∧ (isSpaceJS c = true → c = ' ') := by
  intro c hc
  have hc2 : c ∈ squeezeSpaces
      ((((l.map jsLowerChar).flatMap nfdChar).filter
          (fun c => !isCombiningMark c)).map blankNonWord) :=
    trimList_mem _ _ hc
  rcases squeezeGo_mem _ false c hc2 with rfl | ⟨hmem, hnsp⟩
  · exact ⟨by decide, by decide, by decide, by decide, fun _ => rfl⟩
  · rcases List.mem_map.mp hmem with ⟨d, hd3, hbd⟩
    rcases List.mem_filter.mp hd3 with ⟨hd2, hdm⟩
    by_cases hw : (isUniLetter d || isUniDigit d || isSpaceJS d) = true
    · have hcd : c = d := by rw [← hbd]; simp [blankNonWord, hw]
      subst hcd
      rcases List.mem_flatMap.mp hd2 with ⟨y, hy, hcy⟩
      rcases List.mem_map.mp hy with ⟨x, hx, hyx⟩
      subst hyx
      have hkey := nfd_lower_elem x c hcy (by simpa using hdm)
      exact ⟨hkey.1, hkey.2, by simpa using hdm, by simp [blankNonWord, hw],
             fun h => absurd h (by simp [hnsp])⟩
    · have hcsp : c = ' ' := by rw [← hbd]; simp [blankNonWord, hw]
      rw [hcsp] at hnsp
      exact absurd hnsp (by decide)

theorem normalizeList_chain (l : List Char) : sepSpaces (normalizeList l) :=
  trimList_chain _ (squeezeGo_chain _ false)

theorem normalizeList_idem (l : List Char) :
    normalizeList (normalizeList l) = normalizeList l := by
  have hchars := normalizeList_chars l
  have hchain := normalizeList_chain l
  show trimList (squeezeSpaces
    (((((normalizeList l).map jsLowerChar).flatMap nfdChar).filter
        (fun c => !isCombiningMark c)).map blankNonWord)) = normalizeList l
  rw [map_id_of_mem _ (fun c hc => (hchars c hc).1),
      flatMap_id_of_mem _ (fun c hc => (hchars c hc).2.1),
      List.filter_eq_self.mpr (fun c hc => by simp [(hchars c hc).2.2.1]),
      map_id_of_mem _ (fun c hc => (hchars c hc).2.2.2.1)]
  have hsq : squeezeSpaces (normalizeList l) = normalizeList l :=
    (squeezeGo_id _ hchain (fun c hc => (hchars c hc).2.2.2.2)).1
  rw [hsq]
  exact trimList_idem _

/-- C9: the text normalizer is idempotent. -/
theorem normalize_idempotent (s : String) :
    normalize (normalize s) = normalize s := by
  have h : normalizeList (normalizeList s.data) = normalizeList s.data :=
    normalizeList_idem s.data
  show String.mk (normalizeList (String.mk (normalizeList s.data)).data) =
    String.mk (normalizeList s.data)
  exact congrArg String.mk h


theorem escapeChar_not_mem (c : Char) (h : c ∉ ['<', '>', '\x7b', '\x7d']) :
    escapeChar c = [c] := by
  simp only [List.mem_cons, List.not_mem_nil, or_false, not_or] at h
  simp_all [escapeChar]

theorem escapeChar_elem (d c : Char) (h : c ∈ escapeChar d) : escapeChar c = [c] := by
  by_cases hd : d ∈ ['<', '>', '\x7b', '\x7d']
  · have key : ∀ y ∈ ['<', '>', '\x7b', '\x7d'], ∀ e ∈ escapeChar y,
        escapeChar e = [e] := by decide
    exact key _ hd c h
  · rw [escapeChar_not_mem _ hd] at h
    simp at h
    subst h
    exact escapeChar_not_mem _ hd

theorem sanitizeList_chars (l : List Char) :
    ∀ c ∈ sanitizeList l, escapeChar c = [c] ∧ (isSpaceJS c = true → c = ' ') := by
  intro c hc
  have hc2 : c ∈ squeezeSpaces (l.flatMap escapeChar) := trimList_mem _ _ hc
  rcases squeezeGo_mem _ false c hc2 with rfl | ⟨hmem, hnsp⟩
  · exact ⟨by decide, fun _ => rfl⟩
  · rcases List.mem_flatMap.mp hmem with ⟨d, hd, hcd⟩
    exact ⟨escapeChar_elem d c hcd, fun h => absurd h (by simp [hnsp])⟩

theorem sanitizeList_chain (l : List Char) : sepSpaces (sanitizeList l) :=
  trimList_chain _ (squeezeGo_chain _ false)

theorem sanitizeList_idem (l : List Char) :
    sanitizeList (sanitizeList l) = sanitizeList l := by
  have hchars := sanitizeList_chars l
  have hchain := sanitizeList_chain l
  show trimList (squeezeSpaces ((sanitizeList l).flatMap escapeChar)) = sanitizeList l
  rw [flatMap_id_of_mem _ (fun c hc => (hchars c hc).1)]
  have hsq : squeezeSpaces (sanitizeList l) = sanitizeList l :=
    (squeezeGo_id _ hchain (fun c hc => (hchars c hc).2)).1
  rw [hsq]
  exact trimList_idem _

/-- C10: string sanitization is idempotent. -/
theorem sanitize_idempotent (s : String) : sanitize (sanitize s) = sanitize s := by
  have h : sanitizeList (sanitizeList s.data) = sanitizeList s.data :=
    sanitizeList_idem s.data
  show String.mk (sanitizeList (String.mk (sanitizeList s.data)).data) =
    String.mk (sanitizeList s.data)
  exact congrArg String.mk h

end Camila
